import Mathlib

/-!
Shallow embedding of the Smart Channel Swapper numeric core (src/main.js):
the color-pair store and the least-squares matrix solver
(computeChannelSwapperMatrix, solveLeastSquares, solveLinearSystem),
with real arithmetic modelled exactly by the rationals.
-/

namespace SCS

/-- An RGB color as handed over the collaborator boundary (src/main.js
getCurrentForegroundColor): three channel values. -/
structure Color where
  r : ℚ
  g : ℚ
  b : ℚ
deriving DecidableEq

/-- A well-formed Color at the boundary: each channel an integer in [0, 255]. -/
def Color.WellFormed (c : Color) : Prop :=
  (∃ k : ℕ, k ≤ 255 ∧ c.r = k) ∧
  (∃ k : ℕ, k ≤ 255 ∧ c.g = k) ∧
  (∃ k : ℕ, k ≤ 255 ∧ c.b = k)

/-- The singular-pivot threshold 1e-12 of solveLinearSystem. -/
def eps12 : ℚ := 1 / 10 ^ 12

/-- The regularization constant 1e-10 of solveLeastSquares. -/
def epsReg : ℚ := 1 / 10 ^ 10

/-- aug[i][j], with out-of-range reads defaulting to 0. -/
def getEntry (aug : List (List ℚ)) (i j : ℕ) : ℚ :=
  (aug.getD i []).getD j 0

/-- Partial-pivot selection of solveLinearSystem: starting from maxRow = col,
scan rows col+1 .. n-1 and keep the row whose col-entry has strictly larger
magnitude. -/
def findMaxRow (aug : List (List ℚ)) (col n : ℕ) : ℕ :=
  (List.range' (col + 1) (n - (col + 1))).foldl
    (fun maxRow row =>
      if |getEntry aug row col| > |getEntry aug maxRow col| then row else maxRow)
    col

/-- Swap rows i and j of the augmented matrix. -/
def swapRows (aug : List (List ℚ)) (i j : ℕ) : List (List ℚ) :=
  let ri := aug.getD i []
  let rj := aug.getD j []
  (aug.set i rj).set j ri

/-- One row update of the elimination inner loop: for j = col .. n the entry
becomes target[j] - factor * pivot[j] with factor = target[col] / pivot[col]. -/
def elimRow (n col : ℕ) (pivotRow targetRow : List ℚ) : List ℚ :=
  let factor := targetRow.getD col 0 / pivotRow.getD col 0
  (List.range (n + 1)).map fun j =>
    if col ≤ j then targetRow.getD j 0 - factor * pivotRow.getD j 0
    else targetRow.getD j 0

/-- Eliminate the entries below the pivot of the given column: rows up to col
are kept, rows below are updated against the pivot row. -/
def eliminateBelow (aug : List (List ℚ)) (n col : ℕ) : List (List ℚ) :=
  (List.range n).map fun row =>
    if col < row then elimRow n col (aug.getD col []) (aug.getD row [])
    else aug.getD row []

/-- One column step of forward elimination: select the pivot row, swap it into
place, and unless the pivot magnitude is below 1e-12 (singular column, skipped)
eliminate the entries below it. -/
def forwardStep (aug : List (List ℚ)) (n col : ℕ) : List (List ℚ) :=
  let aug1 := swapRows aug col (findMaxRow aug col n)
  if |getEntry aug1 col col| < eps12 then aug1
  else eliminateBelow aug1 n col

/-- Forward elimination over columns col, col+1, ...; the fuel argument counts
the remaining loop iterations (n - col at every call). -/
def forwardElimAux (n : ℕ) : ℕ → ℕ → List (List ℚ) → List (List ℚ)
  | 0, _, aug => aug
  | fuel + 1, col, aug => forwardElimAux n fuel (col + 1) (forwardStep aug n col)

/-- Forward elimination over columns 0, 1, ..., n-1. -/
def forwardElim (aug : List (List ℚ)) (n : ℕ) : List (List ℚ) :=
  forwardElimAux n n 0 aug

/-- Back substitution of solveLinearSystem, producing x_i, x_{i+1}, ..., x_{n-1}
(the fuel argument is n - i): a diagonal entry below 1e-12 yields the
deterministic default (1 for the first unknown, 0 otherwise) with no division;
otherwise x_i is the right-hand side minus the already-solved terms, divided by
the diagonal entry. -/
def backSubstAux (aug : List (List ℚ)) (n : ℕ) : ℕ → ℕ → List ℚ
  | 0, _ => []
  | fuel + 1, i =>
    let rest := backSubstAux aug n fuel (i + 1)
    let xi :=
      if |getEntry aug i i| < eps12 then (if i = 0 then 1 else 0)
      else
        ((List.range' (i + 1) (n - (i + 1))).foldl
            (fun acc j => acc - getEntry aug i j * rest.getD (j - (i + 1)) 0)
            (getEntry aug i n)) / getEntry aug i i
    xi :: rest

/-- The back-substitution result x_0, ..., x_{n-1}. -/
def backSubst (aug : List (List ℚ)) (n : ℕ) : List ℚ :=
  backSubstAux aug n n 0

/-- Solve A x = b by Gaussian elimination with partial pivoting
(src/main.js solveLinearSystem). -/
def solveLinearSystem (A : List (List ℚ)) (b : List ℚ) : List ℚ :=
  let n := A.length
  let aug := List.zipWith (fun row bi => row ++ [bi]) A b
  backSubst (forwardElim aug n) n

/-- Least squares by regularized normal equations (src/main.js
solveLeastSquares): w = (A^T A + eps I)^{-1} A^T b. The first-row access
A[0] of the source throws on an empty A; this is modelled by none. -/
def solveLeastSquares (A : List (List ℚ)) (b : List ℚ) : Option (List ℚ) :=
  match A with
  | [] => none
  | r0 :: _ =>
    let m := r0.length
    let ATA := (List.range m).map fun i => (List.range m).map fun j =>
      A.foldl (fun sum row => sum + row.getD i 0 * row.getD j 0) 0
    let ATb := (List.range m).map fun i =>
      (A.zip b).foldl (fun sum rb => sum + rb.1.getD i 0 * rb.2) 0
    let ATAreg := (List.range m).map fun i => (List.range m).map fun j =>
      getEntry ATA i j + (if j = i then epsReg else 0)
    some (solveLinearSystem ATAreg ATb)

/-- Normalize a Color from [0,255] to [0,1] (computeChannelSwapperMatrix). -/
def normalizeColor (c : Color) : List ℚ :=
  [c.r / 255, c.g / 255, c.b / 255]

/-- The row sum row.reduce((sum, val) => sum + val, 0). -/
def rowSumOf (row : List ℚ) : ℚ :=
  row.foldl (fun sum val => sum + val) 0

/-- The clipping-prevention step of computeChannelSwapperMatrix: when enabled
and the row sum magnitude exceeds maxSum, scale every entry by
maxSum / |rowSum|. -/
def rescaleRow (preventClipping : Bool) (maxSum : ℚ) (row : List ℚ) : List ℚ :=
  if preventClipping then
    let rowSum := rowSumOf row
    if |rowSum| > maxSum then
      let scale := maxSum / |rowSum|
      row.map fun v => v * scale
    else row
  else row

/-- The final clamp of every entry to Photoshop's valid range [-200, 200]. -/
def clampRow (row : List ℚ) : List ℚ :=
  row.map fun v => max (-200) (min 200 v)

/-- The raw percentage row for one output channel: the least-squares weights
of the channel's target values, scaled by 100. -/
def channelRowRaw (src tgt : List (List ℚ)) (channel : ℕ) : Option (List ℚ) :=
  let targetValues := tgt.map fun t => t.getD channel 0
  (solveLeastSquares src targetValues).map fun weights =>
    weights.map fun w => w * 100

/-- One iteration of the channel loop of computeChannelSwapperMatrix:
raw percentages, then clipping prevention, then the [-200, 200] clamp. -/
def computeRow (src tgt : List (List ℚ)) (preventClipping : Bool) (maxSum : ℚ)
    (channel : ℕ) : Option (List ℚ) :=
  (channelRowRaw src tgt channel).map fun row =>
    clampRow (rescaleRow preventClipping maxSum row)

/-- src/main.js computeChannelSwapperMatrix: normalize the colors and solve the
three output channels independently (the channel loop unrolled); none models
the exception thrown on empty input. -/
def computeChannelSwapperMatrix (sourceColors targetColors : List Color)
    (preventClipping : Bool := true) (maxSum : ℚ := 100) :
    Option (List (List ℚ)) :=
  let src := sourceColors.map normalizeColor
  let tgt := targetColors.map normalizeColor
  match computeRow src tgt preventClipping maxSum 0,
        computeRow src tgt preventClipping maxSum 1,
        computeRow src tgt preventClipping maxSum 2 with
  | some row0, some row1, some row2 => some [row0, row1, row2]
  | _, _, _ => none

/-- A color pair of the store (src/main.js colorPairs entries): a unique id
plus optional source and target colors. -/
structure ColorPair where
  id : ℕ
  source : Option Color
  target : Option Color
deriving DecidableEq

/-- The module-level mutable state of src/main.js: the ordered pair list and
the next-id counter (initially 1). -/
structure Store where
  colorPairs : List ColorPair
  nextPairId : ℕ
deriving DecidableEq

/-- The initial state: no pairs, nextPairId = 1. -/
def initStore : Store :=
  { colorPairs := [], nextPairId := 1 }

/-- src/main.js addColorPair: take the next id (post-incrementing the counter)
and append an empty pair. -/
def addColorPair (s : Store) : Store :=
  { colorPairs :=
      s.colorPairs ++ [{ id := s.nextPairId, source := none, target := none }],
    nextPairId := s.nextPairId + 1 }

/-- src/main.js removeColorPair: keep exactly the pairs whose id differs. -/
def removeColorPair (s : Store) (i : ℕ) : Store :=
  { s with colorPairs := s.colorPairs.filter fun p => p.id != i }

/-- The in-place source update behind setSourceForPair: find(p => p.id === id)
locates the first pair with the id and mutates its source field. -/
def setFirstSource : List ColorPair → ℕ → Color → List ColorPair
  | [], _, _ => []
  | p :: rest, i, c =>
    if p.id = i then { p with source := some c } :: rest
    else p :: setFirstSource rest i c

/-- The in-place target update behind setTargetForPair. -/
def setFirstTarget : List ColorPair → ℕ → Color → List ColorPair
  | [], _, _ => []
  | p :: rest, i, c =>
    if p.id = i then { p with target := some c } :: rest
    else p :: setFirstTarget rest i c

/-- src/main.js setSourceForPair, with the externally sampled foreground color
passed in explicitly; a missing id leaves the store unchanged. -/
def setSourceForPair (s : Store) (i : ℕ) (c : Color) : Store :=
  { s with colorPairs := setFirstSource s.colorPairs i c }

/-- src/main.js setTargetForPair, analogous to setSourceForPair. -/
def setTargetForPair (s : Store) (i : ℕ) (c : Color) : Store :=
  { s with colorPairs := setFirstTarget s.colorPairs i c }

/-- The store operations reachable from the UI event handlers. -/
inductive StoreOp where
  | add
  | remove (i : ℕ)
  | setSource (i : ℕ) (c : Color)
  | setTarget (i : ℕ) (c : Color)

/-- Apply one store operation. -/
def applyOp (s : Store) : StoreOp → Store
  | StoreOp.add => addColorPair s
  | StoreOp.remove i => removeColorPair s i
  | StoreOp.setSource i c => setSourceForPair s i c
  | StoreOp.setTarget i c => setTargetForPair s i c

/-- Run a sequence of store operations from the initial state. -/
def runOps (ops : List StoreOp) : Store :=
  ops.foldl applyOp initStore

/-- The user-visible rejection message of the calculate handler. -/
def calcMessage : String :=
  "Please add at least one complete color pair (source + target)."

/-- Outcome of the calculate-button orchestration. -/
inductive CalcResult where
  | rejected (msg : String)
  | solved (matrix : List (List ℚ))
  | solverFailed
deriving DecidableEq

/-- The calculateBtn click handler of src/main.js: filter the complete pairs,
reject with a message when none exist, otherwise run the solver on the
source/target projections (solverFailed models an exception escaping the
solver). -/
def calculateHandler (s : Store) (preventClipping : Bool) : CalcResult :=
  let validPairs := s.colorPairs.filter fun p => p.source.isSome && p.target.isSome
  if validPairs.length = 0 then CalcResult.rejected calcMessage
  else
    let sourceColors := validPairs.map fun p => p.source.getD { r := 0, g := 0, b := 0 }
    let targetColors := validPairs.map fun p => p.target.getD { r := 0, g := 0, b := 0 }
    match computeChannelSwapperMatrix sourceColors targetColors preventClipping 100 with
    | some m => CalcResult.solved m
    | none => CalcResult.solverFailed

end SCS

namespace SCS

/-! ### List and solver helper lemmas -/

theorem foldl_add_map {α : Type} (g : α → ℚ) :
    ∀ (l : List α) (a : ℚ),
      l.foldl (fun sum x => sum + g x) a = a + (l.map g).sum := by
  intro l
  induction l with
  | nil => intro a; simp
  | cons x xs ih => intro a; simp [ih, add_assoc]

theorem rowSumOf_eq_sum (l : List ℚ) : rowSumOf l = l.sum := by
  simpa [rowSumOf] using foldl_add_map (fun v : ℚ => v) l 0

theorem sum_map_mul (l : List ℚ) (c : ℚ) :
    (l.map fun v => v * c).sum = l.sum * c := by
  induction l with
  | nil => simp
  | cons x xs ih => simp [ih, add_mul]

theorem backSubstAux_length (aug : List (List ℚ)) (n : ℕ) :
    ∀ fuel i, (backSubstAux aug n fuel i).length = fuel := by
  intro fuel
  induction fuel with
  | zero => intro i; rfl
  | succ f ih => intro i; simp [backSubstAux, ih]

theorem solveLinearSystem_length (A : List (List ℚ)) (b : List ℚ) :
    (solveLinearSystem A b).length = A.length := by
  simp [solveLinearSystem, backSubst, backSubstAux_length]

theorem solveLeastSquares_length (b : List ℚ) (r0 : List ℚ)
    (rest : List (List ℚ)) :
    ∃ w, solveLeastSquares (r0 :: rest) b = some w ∧ w.length = r0.length := by
  refine ⟨_, rfl, ?_⟩
  simp [solveLinearSystem_length]

theorem channelRowRaw_some (tgt : List (List ℚ)) (ch : ℕ) (r0 : List ℚ)
    (rest : List (List ℚ)) :
    ∃ raw, channelRowRaw (r0 :: rest) tgt ch = some raw ∧
      raw.length = r0.length := by
  obtain ⟨w, hw, hlen⟩ := solveLeastSquares_length (tgt.map fun t => t.getD ch 0) r0 rest
  refine ⟨w.map fun v => v * 100, ?_, by simp [hlen]⟩
  simp only [channelRowRaw]
  rw [hw]
  rfl

theorem computeRow_eq (src tgt : List (List ℚ)) (pc : Bool) (ms : ℚ) (ch : ℕ)
    (raw : List ℚ) (h : channelRowRaw src tgt ch = some raw) :
    computeRow src tgt pc ms ch = some (clampRow (rescaleRow pc ms raw)) := by
  simp [computeRow, h]

theorem computeMatrix_of_rows (sc tc : List Color) (pc : Bool) (ms : ℚ)
    (r0 r1 r2 : List ℚ)
    (h0 : computeRow (sc.map normalizeColor) (tc.map normalizeColor) pc ms 0 = some r0)
    (h1 : computeRow (sc.map normalizeColor) (tc.map normalizeColor) pc ms 1 = some r1)
    (h2 : computeRow (sc.map normalizeColor) (tc.map normalizeColor) pc ms 2 = some r2) :
    computeChannelSwapperMatrix sc tc pc ms = some [r0, r1, r2] := by
  simp [computeChannelSwapperMatrix, h0, h1, h2]

theorem computeMatrix_rows (sc tc : List Color) (pc : Bool) (ms : ℚ)
    (M : List (List ℚ)) (h : computeChannelSwapperMatrix sc tc pc ms = some M) :
    ∃ r0 r1 r2,
      computeRow (sc.map normalizeColor) (tc.map normalizeColor) pc ms 0 = some r0 ∧
      computeRow (sc.map normalizeColor) (tc.map normalizeColor) pc ms 1 = some r1 ∧
      computeRow (sc.map normalizeColor) (tc.map normalizeColor) pc ms 2 = some r2 ∧
      M = [r0, r1, r2] := by
  simp only [computeChannelSwapperMatrix] at h
  cases h0 : computeRow (sc.map normalizeColor) (tc.map normalizeColor) pc ms 0 with
  | none => rw [h0] at h; simp at h
  | some r0 =>
    cases h1 : computeRow (sc.map normalizeColor) (tc.map normalizeColor) pc ms 1 with
    | none => rw [h0, h1] at h; simp at h
    | some r1 =>
      cases h2 : computeRow (sc.map normalizeColor) (tc.map normalizeColor) pc ms 2 with
      | none => rw [h0, h1, h2] at h; simp at h
      | some r2 =>
        rw [h0, h1, h2] at h
        exact ⟨r0, r1, r2, rfl, rfl, rfl, (Option.some.inj h).symm⟩

theorem clampRow_length (row : List ℚ) : (clampRow row).length = row.length := by
  simp [clampRow]

theorem rescaleRow_length (pc : Bool) (ms : ℚ) (row : List ℚ) :
    (rescaleRow pc ms row).length = row.length := by
  cases pc with
  | false => rfl
  | true => by_cases h : |rowSumOf row| > ms <;> simp [rescaleRow, h]

theorem normalizeColor_length (c : Color) : (normalizeColor c).length = 3 := by
  simp [normalizeColor]

theorem computeMatrix_total (sc tc : List Color) (pc : Bool) (ms : ℚ)
    (hne : sc ≠ []) :
    ∃ M, computeChannelSwapperMatrix sc tc pc ms = some M ∧
      M.length = 3 ∧ ∀ row ∈ M, row.length = 3 := by
  obtain ⟨c, rest, rfl⟩ := List.exists_cons_of_ne_nil hne
  have hmap : (c :: rest).map normalizeColor
      = normalizeColor c :: rest.map normalizeColor := rfl
  obtain ⟨raw0, h0, hl0⟩ := channelRowRaw_some (tc.map normalizeColor) 0
    (normalizeColor c) (rest.map normalizeColor)
  obtain ⟨raw1, h1, hl1⟩ := channelRowRaw_some (tc.map normalizeColor) 1
    (normalizeColor c) (rest.map normalizeColor)
  obtain ⟨raw2, h2, hl2⟩ := channelRowRaw_some (tc.map normalizeColor) 2
    (normalizeColor c) (rest.map normalizeColor)
  refine ⟨[clampRow (rescaleRow pc ms raw0), clampRow (rescaleRow pc ms raw1),
    clampRow (rescaleRow pc ms raw2)],
    computeMatrix_of_rows _ _ _ _ _ _ _
      (by rw [hmap]; exact computeRow_eq _ _ _ _ _ _ h0)
      (by rw [hmap]; exact computeRow_eq _ _ _ _ _ _ h1)
      (by rw [hmap]; exact computeRow_eq _ _ _ _ _ _ h2), rfl, ?_⟩
  intro row hrow
  have hlen3 : ∀ raw : List ℚ, raw.length = (normalizeColor c).length →
      (clampRow (rescaleRow pc ms raw)).length = 3 := by
    intro raw hraw
    rw [clampRow_length, rescaleRow_length, hraw, normalizeColor_length]
  simp only [List.mem_cons, List.not_mem_nil, or_false] at hrow
  rcases hrow with rfl | rfl | rfl
  · exact hlen3 raw0 hl0
  · exact hlen3 raw1 hl1
  · exact hlen3 raw2 hl2

end SCS

namespace SCS

/-! ### Clamp and rescale bounds -/

theorem clamp_bounds (v : ℚ) :
    -200 ≤ max (-200) (min 200 v) ∧ max (-200) (min 200 v) ≤ 200 :=
  ⟨le_max_left _ _, max_le (by norm_num) (min_le_left _ _)⟩

theorem mem_clampRow_bounds (row : List ℚ) (x : ℚ) (hx : x ∈ clampRow row) :
    -200 ≤ x ∧ x ≤ 200 := by
  simp only [clampRow, List.mem_map] at hx
  obtain ⟨v, -, rfl⟩ := hx
  exact clamp_bounds v

theorem rescaleRow_true (ms : ℚ) (row : List ℚ) :
    rescaleRow true ms row =
      if |rowSumOf row| > ms then row.map fun v => v * (ms / |rowSumOf row|)
      else row := rfl

theorem rescaleRow_sum_le (ms : ℚ) (hms : 0 ≤ ms) (row : List ℚ) :
    |rowSumOf (rescaleRow true ms row)| ≤ ms := by
  rw [rescaleRow_true]
  by_cases h : |rowSumOf row| > ms
  · rw [if_pos h]
    have hne : |rowSumOf row| ≠ 0 := ne_of_gt (lt_of_le_of_lt hms h)
    have hmap : rowSumOf (row.map fun v => v * (ms / |rowSumOf row|))
        = rowSumOf row * (ms / |rowSumOf row|) := by
      simp only [rowSumOf_eq_sum]
      exact sum_map_mul row _
    rw [hmap, abs_mul, abs_div, abs_abs, abs_of_nonneg hms, mul_comm,
      div_mul_cancel₀ _ hne]
  · rw [if_neg h]
    exact le_of_not_lt h

/-! ### Singular-guard behaviour of the elimination and back substitution -/

theorem forwardStep_singular (aug : List (List ℚ)) (n col : ℕ)
    (h : |getEntry (swapRows aug col (findMaxRow aug col n)) col col| < eps12) :
    forwardStep aug n col = swapRows aug col (findMaxRow aug col n) := by
  simp only [forwardStep]
  rw [if_pos h]

theorem backSubstAux_getD (aug : List (List ℚ)) (n : ℕ) :
    ∀ (d : ℕ), ∀ fuel k, d < fuel →
      (backSubstAux aug n fuel k).getD d 0
        = (backSubstAux aug n (fuel - d) (k + d)).getD 0 0 := by
  intro d
  induction d with
  | zero => intro fuel k _; simp
  | succ d ih =>
    intro fuel k hd
    cases fuel with
    | zero => omega
    | succ f =>
      have step : (backSubstAux aug n (f + 1) k).getD (d + 1) 0
          = (backSubstAux aug n f (k + 1)).getD d 0 := rfl
      have e1 : f + 1 - (d + 1) = f - d := by omega
      have e2 : k + (d + 1) = k + 1 + d := by omega
      rw [step, e1, e2]
      exact ih f (k + 1) (by omega)

theorem backSubst_default (aug : List (List ℚ)) (n i : ℕ) (hin : i < n)
    (hsing : |getEntry aug i i| < eps12) :
    (backSubst aug n).getD i 0 = if i = 0 then 1 else 0 := by
  unfold backSubst
  rw [backSubstAux_getD aug n i n 0 hin]
  obtain ⟨m, hm⟩ : ∃ m, n - i = m + 1 := ⟨n - i - 1, by omega⟩
  rw [hm, Nat.zero_add]
  simp only [backSubstAux, List.getD_cons_zero]
  rw [if_pos hsing]

end SCS

namespace SCS

theorem solveLeastSquares_cons (r0 : List ℚ) (rest : List (List ℚ)) (b : List ℚ) :
    solveLeastSquares (r0 :: rest) b
      = some (solveLinearSystem
          ((List.range r0.length).map fun i => (List.range r0.length).map fun j =>
            getEntry
              ((List.range r0.length).map fun i2 => (List.range r0.length).map fun j2 =>
                (r0 :: rest).foldl (fun sum row => sum + row.getD i2 0 * row.getD j2 0) 0)
              i j + (if j = i then epsReg else 0))
          ((List.range r0.length).map fun i =>
            ((r0 :: rest).zip b).foldl (fun sum rb => sum + rb.1.getD i 0 * rb.2) 0)) := rfl

theorem solveLeastSquares_perm (ps qs : List (Color × Color)) (h : ps.Perm qs)
    (g : Color × Color → ℚ) :
    solveLeastSquares (ps.map fun p => normalizeColor p.1) (ps.map g)
      = solveLeastSquares (qs.map fun p => normalizeColor p.1) (qs.map g) := by
  cases ps with
  | nil =>
    have hq : qs = [] := h.symm.eq_nil
    rw [hq]
  | cons p0 ps' =>
    cases qs with
    | nil => exact absurd h.eq_nil (by simp)
    | cons q0 qs' =>
      have hsum : ∀ gg : Color × Color → ℚ,
          ((p0 :: ps').map gg).sum = ((q0 :: qs').map gg).sum :=
        fun gg => (h.map gg).sum_eq
      have hATA : ∀ i j : ℕ,
          ((p0 :: ps').map fun p => normalizeColor p.1).foldl
              (fun sum row => sum + row.getD i 0 * row.getD j 0) 0
            = ((q0 :: qs').map fun p => normalizeColor p.1).foldl
              (fun sum row => sum + row.getD i 0 * row.getD j 0) 0 := by
        intro i j
        rw [foldl_add_map (fun row : List ℚ => row.getD i 0 * row.getD j 0),
          foldl_add_map (fun row : List ℚ => row.getD i 0 * row.getD j 0),
          List.map_map, List.map_map]
        exact congrArg (0 + ·) (hsum _)
      have hATb : ∀ i : ℕ,
          ((((p0 :: ps').map fun p => normalizeColor p.1).zip ((p0 :: ps').map g)).foldl
              (fun sum rb => sum + rb.1.getD i 0 * rb.2) 0)
            = ((((q0 :: qs').map fun p => normalizeColor p.1).zip ((q0 :: qs').map g)).foldl
              (fun sum rb => sum + rb.1.getD i 0 * rb.2) 0) := by
        intro i
        rw [List.zip_map', List.zip_map',
          foldl_add_map (fun rb : List ℚ × ℚ => rb.1.getD i 0 * rb.2),
          foldl_add_map (fun rb : List ℚ × ℚ => rb.1.getD i 0 * rb.2),
          List.map_map, List.map_map]
        exact congrArg (0 + ·) (hsum _)
      have el : ((p0 :: ps').map fun p => normalizeColor p.1)
          = normalizeColor p0.1 :: (ps'.map fun p => normalizeColor p.1) := rfl
      have er : ((q0 :: qs').map fun p => normalizeColor p.1)
          = normalizeColor q0.1 :: (qs'.map fun p => normalizeColor p.1) := rfl
      have hATAinner :
          ((List.range 3).map fun i2 => (List.range 3).map fun j2 =>
            ((p0 :: ps').map fun p => normalizeColor p.1).foldl
              (fun sum row => sum + row.getD i2 0 * row.getD j2 0) 0)
          = ((List.range 3).map fun i2 => (List.range 3).map fun j2 =>
            ((q0 :: qs').map fun p => normalizeColor p.1).foldl
              (fun sum row => sum + row.getD i2 0 * row.getD j2 0) 0) :=
        List.map_congr_left fun i2 _ => List.map_congr_left fun j2 _ => hATA i2 j2
      have hATblist :
          ((List.range 3).map fun i =>
            (((p0 :: ps').map fun p => normalizeColor p.1).zip ((p0 :: ps').map g)).foldl
              (fun sum rb => sum + rb.1.getD i 0 * rb.2) 0)
          = ((List.range 3).map fun i =>
            (((q0 :: qs').map fun p => normalizeColor p.1).zip ((q0 :: qs').map g)).foldl
              (fun sum rb => sum + rb.1.getD i 0 * rb.2) 0) :=
        List.map_congr_left fun i _ => hATb i
      rw [el, er, solveLeastSquares_cons, solveLeastSquares_cons]
      rw [← el, ← er]
      simp only [normalizeColor_length]
      rw [hATAinner, hATblist]

end SCS

namespace SCS

theorem channelRowRaw_perm (ps qs : List (Color × Color)) (h : ps.Perm qs) (ch : ℕ) :
    channelRowRaw ((ps.map Prod.fst).map normalizeColor)
        ((ps.map Prod.snd).map normalizeColor) ch
      = channelRowRaw ((qs.map Prod.fst).map normalizeColor)
        ((qs.map Prod.snd).map normalizeColor) ch := by
  have e1 : ∀ l : List (Color × Color),
      (l.map Prod.fst).map normalizeColor = l.map fun p => normalizeColor p.1 := by
    intro l; rw [List.map_map]; rfl
  have e2 : ∀ l : List (Color × Color),
      ((l.map Prod.snd).map normalizeColor).map (fun t => t.getD ch 0)
        = l.map fun p => (normalizeColor p.2).getD ch 0 := by
    intro l; rw [List.map_map, List.map_map]; rfl
  simp only [channelRowRaw]
  rw [e1 ps, e1 qs, e2 ps, e2 qs,
    solveLeastSquares_perm ps qs h fun p => (normalizeColor p.2).getD ch 0]

theorem computeRow_perm (ps qs : List (Color × Color)) (h : ps.Perm qs)
    (pc : Bool) (ms : ℚ) (ch : ℕ) :
    computeRow ((ps.map Prod.fst).map normalizeColor)
        ((ps.map Prod.snd).map normalizeColor) pc ms ch
      = computeRow ((qs.map Prod.fst).map normalizeColor)
        ((qs.map Prod.snd).map normalizeColor) pc ms ch := by
  simp only [computeRow]
  rw [channelRowRaw_perm ps qs h ch]

end SCS

namespace SCS

/-! ### Store lemmas -/

theorem ids_setFirstSource (l : List ColorPair) (i : ℕ) (c : Color) :
    (setFirstSource l i c).map ColorPair.id = l.map ColorPair.id := by
  induction l with
  | nil => rfl
  | cons p rest ih =>
    by_cases hp : p.id = i <;> simp [setFirstSource, hp, ih]

theorem ids_setFirstTarget (l : List ColorPair) (i : ℕ) (c : Color) :
    (setFirstTarget l i c).map ColorPair.id = l.map ColorPair.id := by
  induction l with
  | nil => rfl
  | cons p rest ih =>
    by_cases hp : p.id = i <;> simp [setFirstTarget, hp, ih]

theorem storeInv_applyOp (s : Store) (op : StoreOp)
    (h1 : (s.colorPairs.map ColorPair.id).Pairwise (· < ·))
    (h2 : ∀ p ∈ s.colorPairs, p.id < s.nextPairId) :
    ((applyOp s op).colorPairs.map ColorPair.id).Pairwise (· < ·)
      ∧ ∀ p ∈ (applyOp s op).colorPairs, p.id < (applyOp s op).nextPairId := by
  cases op with
  | add =>
    constructor
    · simp only [applyOp, addColorPair, List.map_append, List.map_cons,
        List.map_nil]
      rw [List.pairwise_append]
      refine ⟨h1, List.pairwise_singleton _ _, ?_⟩
      intro a ha b hb
      simp only [List.mem_singleton] at hb
      subst hb
      obtain ⟨p, hp, rfl⟩ := List.mem_map.1 ha
      exact h2 p hp
    · intro p hp
      simp only [applyOp, addColorPair, List.mem_append, List.mem_singleton] at hp
      rcases hp with hp | rfl
      · exact lt_trans (h2 p hp) (Nat.lt_succ_self _)
      · exact Nat.lt_succ_self _
  | remove i =>
    refine ⟨h1.sublist ((List.filter_sublist _).map _), ?_⟩
    intro p hp
    exact h2 p (List.mem_of_mem_filter hp)
  | setSource i c =>
    refine ⟨?_, ?_⟩
    · have e : (applyOp s (StoreOp.setSource i c)).colorPairs
          = setFirstSource s.colorPairs i c := rfl
      rw [e, ids_setFirstSource]
      exact h1
    · intro p hp
      have hmem : p.id ∈ (setFirstSource s.colorPairs i c).map ColorPair.id :=
        List.mem_map_of_mem _ hp
      rw [ids_setFirstSource] at hmem
      obtain ⟨q, hq, hqe⟩ := List.mem_map.1 hmem
      have hlt := h2 q hq
      rw [hqe] at hlt
      exact hlt
  | setTarget i c =>
    refine ⟨?_, ?_⟩
    · have e : (applyOp s (StoreOp.setTarget i c)).colorPairs
          = setFirstTarget s.colorPairs i c := rfl
      rw [e, ids_setFirstTarget]
      exact h1
    · intro p hp
      have hmem : p.id ∈ (setFirstTarget s.colorPairs i c).map ColorPair.id :=
        List.mem_map_of_mem _ hp
      rw [ids_setFirstTarget] at hmem
      obtain ⟨q, hq, hqe⟩ := List.mem_map.1 hmem
      have hlt := h2 q hq
      rw [hqe] at hlt
      exact hlt

theorem storeInv_foldl (ops : List StoreOp) : ∀ s : Store,
    (s.colorPairs.map ColorPair.id).Pairwise (· < ·) →
    (∀ p ∈ s.colorPairs, p.id < s.nextPairId) →
    ((ops.foldl applyOp s).colorPairs.map ColorPair.id).Pairwise (· < ·)
      ∧ ∀ p ∈ (ops.foldl applyOp s).colorPairs,
          p.id < (ops.foldl applyOp s).nextPairId := by
  induction ops with
  | nil => intro s h1 h2; exact ⟨h1, h2⟩
  | cons op rest ih =>
    intro s h1 h2
    obtain ⟨h1a, h2a⟩ := storeInv_applyOp s op h1 h2
    exact ih (applyOp s op) h1a h2a

theorem storeInv_runOps (ops : List StoreOp) :
    ((runOps ops).colorPairs.map ColorPair.id).Pairwise (· < ·)
      ∧ ∀ p ∈ (runOps ops).colorPairs, p.id < (runOps ops).nextPairId :=
  storeInv_foldl ops initStore (by simp [initStore]) (by simp [initStore])

theorem nextPairId_applyOp (s : Store) (op : StoreOp) :
    s.nextPairId ≤ (applyOp s op).nextPairId := by
  cases op with
  | add => exact Nat.le_succ _
  | remove i => exact le_refl _
  | setSource i c => exact le_refl _
  | setTarget i c => exact le_refl _

theorem memId_applyOp (s : Store) (op : StoreOp) (p : ColorPair)
    (hp : p ∈ (applyOp s op).colorPairs) :
    p.id ∈ s.colorPairs.map ColorPair.id ∨ p.id = s.nextPairId := by
  cases op with
  | add =>
    simp only [applyOp, addColorPair, List.mem_append, List.mem_singleton] at hp
    rcases hp with hp | rfl
    · exact Or.inl (List.mem_map_of_mem _ hp)
    · exact Or.inr rfl
  | remove i =>
    exact Or.inl (List.mem_map_of_mem _ (List.mem_of_mem_filter hp))
  | setSource i c =>
    have hmem : p.id ∈ (setFirstSource s.colorPairs i c).map ColorPair.id :=
      List.mem_map_of_mem _ hp
    rw [ids_setFirstSource] at hmem
    exact Or.inl hmem
  | setTarget i c =>
    have hmem : p.id ∈ (setFirstTarget s.colorPairs i c).map ColorPair.id :=
      List.mem_map_of_mem _ hp
    rw [ids_setFirstTarget] at hmem
    exact Or.inl hmem

theorem fresh_not_reused (more : List StoreOp) : ∀ (s : Store) (i : ℕ),
    i < s.nextPairId → i ∉ s.colorPairs.map ColorPair.id →
    i ∉ (more.foldl applyOp s).colorPairs.map ColorPair.id := by
  induction more with
  | nil => intro s i _ h2; exact h2
  | cons op rest ih =>
    intro s i h1 h2
    apply ih (applyOp s op) i (lt_of_lt_of_le h1 (nextPairId_applyOp s op))
    intro hmem
    obtain ⟨p, hp, hpe⟩ := List.mem_map.1 hmem
    rcases memId_applyOp s op p hp with hin | heq
    · exact h2 (hpe ▸ hin)
    · have : i = s.nextPairId := hpe ▸ heq
      omega

theorem mem_removeColorPair (s : Store) (i : ℕ) (p : ColorPair)
    (hp : p ∈ s.colorPairs) (hne : p.id ≠ i) :
    p ∈ (removeColorPair s i).colorPairs :=
  List.mem_filter.2 ⟨hp, by simp [hne]⟩

theorem setFirstSource_not_mem (l : List ColorPair) (i : ℕ) (c : Color)
    (h : i ∉ l.map ColorPair.id) : setFirstSource l i c = l := by
  induction l with
  | nil => rfl
  | cons p rest ih =>
    simp only [List.map_cons, List.mem_cons] at h
    push_neg at h
    obtain ⟨h1, h2⟩ := h
    simp only [setFirstSource]
    rw [if_neg fun hh => h1 hh.symm, ih h2]

theorem setFirstSource_mem (l : List ColorPair) (i : ℕ) (c : Color)
    (h : i ∈ l.map ColorPair.id) :
    ∃ k, ∃ hk : k < l.length,
      (l.get ⟨k, hk⟩).id = i ∧
      setFirstSource l i c = l.set k { l.get ⟨k, hk⟩ with source := some c } := by
  induction l with
  | nil => simp at h
  | cons p rest ih =>
    by_cases hp : p.id = i
    · refine ⟨0, Nat.succ_pos _, hp, ?_⟩
      simp [setFirstSource, hp]
    · have h2 : i ∈ rest.map ColorPair.id := by
        simp only [List.map_cons, List.mem_cons] at h
        rcases h with h | h
        · exact absurd h.symm hp
        · exact h
      obtain ⟨k, hk, hid, heq⟩ := ih h2
      refine ⟨k + 1, Nat.succ_lt_succ hk, ?_, ?_⟩
      · simpa using hid
      · simp only [setFirstSource]
        rw [if_neg hp, heq]
        simp

end SCS

namespace SCS

/-! ### Calculate-handler lemmas -/

theorem calculateHandler_empty (s : Store) (pc : Bool)
    (h : s.colorPairs.filter (fun p => p.source.isSome && p.target.isSome) = []) :
    calculateHandler s pc = CalcResult.rejected calcMessage := by
  simp [calculateHandler, h]

theorem calculateHandler_solved (s : Store) (pc : Bool)
    (h : s.colorPairs.filter (fun p => p.source.isSome && p.target.isSome) ≠ []) :
    ∃ M, calculateHandler s pc = CalcResult.solved M := by
  obtain ⟨q, rest, hq⟩ := List.exists_cons_of_ne_nil h
  have hsrc : ((s.colorPairs.filter fun p => p.source.isSome && p.target.isSome).map
      fun p => p.source.getD { r := 0, g := 0, b := 0 }) ≠ [] := by
    rw [hq]; simp
  obtain ⟨M, hM, -, -⟩ := computeMatrix_total
    ((s.colorPairs.filter fun p => p.source.isSome && p.target.isSome).map
      fun p => p.source.getD { r := 0, g := 0, b := 0 })
    ((s.colorPairs.filter fun p => p.source.isSome && p.target.isSome).map
      fun p => p.target.getD { r := 0, g := 0, b := 0 }) pc 100 hsrc
  have hlen : ¬ ((s.colorPairs.filter fun p =>
      p.source.isSome && p.target.isSome).length = 0) := by
    simpa [List.length_eq_zero] using h
  refine ⟨M, ?_⟩
  simp only [calculateHandler]
  rw [if_neg hlen, hM]

end SCS

namespace SCS

theorem computeRow_inv (src tgt : List (List ℚ)) (pc : Bool) (ms : ℚ) (ch : ℕ)
    (r : List ℚ) (h : computeRow src tgt pc ms ch = some r) :
    ∃ raw, channelRowRaw src tgt ch = some raw
      ∧ r = clampRow (rescaleRow pc ms raw) := by
  simp only [computeRow] at h
  cases hr : channelRowRaw src tgt ch with
  | none => rw [hr] at h; simp at h
  | some raw =>
    rw [hr] at h
    exact ⟨raw, rfl, (Option.some.inj h).symm⟩

theorem wellFormed_intro (c : Color) (k1 k2 k3 : ℕ)
    (h1 : k1 ≤ 255) (h2 : k2 ≤ 255) (h3 : k3 ≤ 255)
    (e1 : c.r = k1) (e2 : c.g = k2) (e3 : c.b = k3) : c.WellFormed :=
  ⟨⟨k1, h1, e1⟩, ⟨k2, h2, e2⟩, ⟨k3, h3, e3⟩⟩

/-- C9: on the empty input (both color lists empty) computeChannelSwapperMatrix
fails (none, modelling the thrown first-row access) instead of returning a
matrix, for both settings of preventClipping and any maxSum. -/
theorem emptyInput_fails (pc : Bool) (ms : ℚ) :
    computeChannelSwapperMatrix [] [] pc ms = none := rfl

theorem emptyInput_fails_witness :
    computeChannelSwapperMatrix [] [] true 100 = none :=
  emptyInput_fails true 100

/-- C3: for every non-empty pair of equal-length well-formed color lists —
including degenerate ones such as all source colors identical — the solver
returns a 3x3 matrix and never fails. -/
theorem solver_total (sc tc : List Color) (pc : Bool) (ms : ℚ)
    (_hwf : ∀ c ∈ sc ++ tc, c.WellFormed) (_hlen : sc.length = tc.length)
    (hne : sc ≠ []) :
    computeChannelSwapperMatrix sc tc pc ms ≠ none
    ∧ ((computeChannelSwapperMatrix sc tc pc ms).getD []).length = 3
    ∧ ∀ row ∈ (computeChannelSwapperMatrix sc tc pc ms).getD [],
        row.length = 3 := by
  obtain ⟨M, hM, hMl, hrows⟩ := computeMatrix_total sc tc pc ms hne
  rw [hM]
  exact ⟨by simp, by simpa using hMl, by simpa using hrows⟩

theorem solver_total_witness :
    ((computeChannelSwapperMatrix [{ r := 7, g := 7, b := 7 }]
      [{ r := 7, g := 7, b := 7 }] true 100).getD []).length = 3 :=
  (solver_total [{ r := 7, g := 7, b := 7 }] [{ r := 7, g := 7, b := 7 }]
    true 100
    (by
      intro c hc
      simp only [List.cons_append, List.nil_append, List.mem_cons,
        List.not_mem_nil, or_false] at hc
      rcases hc with rfl | rfl <;>
        exact wellFormed_intro _ 7 7 7 (by norm_num) (by norm_num) (by norm_num)
          (by norm_num) (by norm_num) (by norm_num))
    rfl (by simp)).2.1

/-- C2: every entry of any returned matrix lies in [-200, 200], for any
well-formed non-empty equal-length input and either preventClipping value. -/
theorem matrix_entries_clamped (sc tc : List Color) (pc : Bool) (ms : ℚ)
    (M : List (List ℚ))
    (_hwf : ∀ c ∈ sc ++ tc, c.WellFormed) (_hlen : sc.length = tc.length)
    (_hne : sc ≠ [])
    (hM : computeChannelSwapperMatrix sc tc pc ms = some M) :
    ∀ row ∈ M, ∀ x ∈ row, -200 ≤ x ∧ x ≤ 200 := by
  obtain ⟨r0, r1, r2, h0, h1, h2, rfl⟩ := computeMatrix_rows sc tc pc ms M hM
  intro row hrow x hx
  simp only [List.mem_cons, List.not_mem_nil, or_false] at hrow
  rcases hrow with rfl | rfl | rfl
  · obtain ⟨raw, -, rfl⟩ := computeRow_inv _ _ _ _ _ _ h0
    exact mem_clampRow_bounds _ x hx
  · obtain ⟨raw, -, rfl⟩ := computeRow_inv _ _ _ _ _ _ h1
    exact mem_clampRow_bounds _ x hx
  · obtain ⟨raw, -, rfl⟩ := computeRow_inv _ _ _ _ _ _ h2
    exact mem_clampRow_bounds _ x hx

/-- C6: a column whose selected pivot has magnitude below 1e-12 skips its
elimination step, and back substitution assigns the deterministic default
(1 for the first unknown, 0 otherwise) to any component whose diagonal entry
has magnitude below 1e-12. -/
theorem singular_guards (aug : List (List ℚ)) (n col i : ℕ) :
    (|getEntry (swapRows aug col (findMaxRow aug col n)) col col| < eps12 →
      forwardStep aug n col = swapRows aug col (findMaxRow aug col n))
    ∧ (i < n → |getEntry aug i i| < eps12 →
      (backSubst aug n).getD i 0 = if i = 0 then 1 else 0) :=
  ⟨forwardStep_singular aug n col, fun h1 h2 => backSubst_default aug n i h1 h2⟩

theorem singular_guards_witness :
    forwardStep [[0, 0]] 1 0 = swapRows [[0, 0]] 0 (findMaxRow [[0, 0]] 0 1)
    ∧ (backSubst [[0, 0]] 1).getD 0 0 = 1 :=
  ⟨(singular_guards [[0, 0]] 1 0 0).1
      (by norm_num [swapRows, findMaxRow, getEntry, eps12]),
    (singular_guards [[0, 0]] 1 0 0).2 (by norm_num)
      (by norm_num [getEntry, eps12])⟩

/-- C7: a solve request with zero complete pairs is rejected with the
user-visible message (and only then), and the solver path never fails, so the
solver is never invoked on empty input from this path. -/
theorem noInput_rejected (s : Store) (pc : Bool) :
    (s.colorPairs.filter (fun p => p.source.isSome && p.target.isSome) = []
      ↔ calculateHandler s pc = CalcResult.rejected calcMessage)
    ∧ calculateHandler s pc ≠ CalcResult.solverFailed := by
  constructor
  · constructor
    · exact calculateHandler_empty s pc
    · intro hres
      by_contra hne
      obtain ⟨M, hM⟩ := calculateHandler_solved s pc hne
      rw [hM] at hres
      simp at hres
  · by_cases h : s.colorPairs.filter (fun p => p.source.isSome && p.target.isSome) = []
    · rw [calculateHandler_empty s pc h]
      simp
    · obtain ⟨M, hM⟩ := calculateHandler_solved s pc h
      rw [hM]
      simp

theorem noInput_rejected_witness :
    calculateHandler initStore true = CalcResult.rejected calcMessage :=
  (noInput_rejected initStore true).1.1 rfl

/-- C8: in every reachable store state the pair ids are strictly increasing in
insertion order (hence pairwise distinct), all smaller than the next-id
counter, an id absent below the counter is never reintroduced by later
operations (ids are never reused), and removing a pair keeps every other pair
(with its id) intact. -/
theorem store_id_invariant (ops : List StoreOp) :
    ((runOps ops).colorPairs.map ColorPair.id).Pairwise (· < ·)
    ∧ (∀ p ∈ (runOps ops).colorPairs, p.id < (runOps ops).nextPairId)
    ∧ (∀ i : ℕ, i < (runOps ops).nextPairId →
        i ∉ (runOps ops).colorPairs.map ColorPair.id →
        ∀ more : List StoreOp,
          i ∉ (runOps (ops ++ more)).colorPairs.map ColorPair.id)
    ∧ (∀ i : ℕ, ∀ p ∈ (runOps ops).colorPairs, p.id ≠ i →
        p ∈ (removeColorPair (runOps ops) i).colorPairs) := by
  obtain ⟨h1, h2⟩ := storeInv_runOps ops
  refine ⟨h1, h2, ?_, ?_⟩
  · intro i hi hnot more
    have hsplit : runOps (ops ++ more) = more.foldl applyOp (runOps ops) := by
      simp [runOps, List.foldl_append]
    rw [hsplit]
    exact fresh_not_reused more (runOps ops) i hi hnot
  · intro i p hp hne
    exact mem_removeColorPair (runOps ops) i p hp hne

theorem store_id_invariant_witness :
    ({ id := 1, source := none, target := none } : ColorPair)
      ∈ (removeColorPair (runOps [StoreOp.add]) 2).colorPairs :=
  (store_id_invariant [StoreOp.add]).2.2.2 2
    { id := 1, source := none, target := none }
    (by simp [runOps, applyOp, addColorPair, initStore]) (by norm_num)

/-- C10: setSourceForPair changes only the source field of the first pair with
the given id — its id and target, all other pairs, the order and length of the
collection, and the next-id counter are unchanged — and is the identity when
the id is absent. -/
theorem setSource_frame (s : Store) (i : ℕ) (c : Color) :
    (setSourceForPair s i c).nextPairId = s.nextPairId
    ∧ (i ∉ s.colorPairs.map ColorPair.id → setSourceForPair s i c = s)
    ∧ (i ∈ s.colorPairs.map ColorPair.id →
        ∃ k, ∃ hk : k < s.colorPairs.length,
          (s.colorPairs.get ⟨k, hk⟩).id = i
          ∧ ({ s.colorPairs.get ⟨k, hk⟩ with source := some c } : ColorPair).id
              = (s.colorPairs.get ⟨k, hk⟩).id
          ∧ ({ s.colorPairs.get ⟨k, hk⟩ with source := some c } : ColorPair).target
              = (s.colorPairs.get ⟨k, hk⟩).target
          ∧ (setSourceForPair s i c).colorPairs
              = s.colorPairs.set k { s.colorPairs.get ⟨k, hk⟩ with source := some c }
          ∧ (setSourceForPair s i c).colorPairs.length
              = s.colorPairs.length) := by
  refine ⟨rfl, ?_, ?_⟩
  · intro h
    have he := setFirstSource_not_mem s.colorPairs i c h
    cases s with
    | mk cp nid => simp only [setSourceForPair] at he ⊢; rw [he]
  · intro h
    obtain ⟨k, hk, hid, heq⟩ := setFirstSource_mem s.colorPairs i c h
    refine ⟨k, hk, hid, rfl, rfl, heq, ?_⟩
    have : (setSourceForPair s i c).colorPairs
        = s.colorPairs.set k { s.colorPairs.get ⟨k, hk⟩ with source := some c } := heq
    rw [this, List.length_set]

theorem setSource_frame_witness :
    (setSourceForPair
      { colorPairs := [{ id := 1, source := none, target := none }],
        nextPairId := 2 } 1 { r := 5, g := 5, b := 5 }).nextPairId = 2 :=
  (setSource_frame
    { colorPairs := [{ id := 1, source := none, target := none }],
      nextPairId := 2 } 1 { r := 5, g := 5, b := 5 }).1

/-- C5: permuting the complete pairs (the same permutation applied to sources
and targets) leaves the computed matrix unchanged, exactly, in the rational
model. -/
theorem permutation_invariance (ps qs : List (Color × Color)) (h : ps.Perm qs)
    (_hn : 2 ≤ ps.length) (pc : Bool) (ms : ℚ) :
    computeChannelSwapperMatrix (ps.map Prod.fst) (ps.map Prod.snd) pc ms
      = computeChannelSwapperMatrix (qs.map Prod.fst) (qs.map Prod.snd) pc ms := by
  have hch := computeRow_perm ps qs h pc ms
  simp only [computeChannelSwapperMatrix]
  rw [hch 0, hch 1, hch 2]

theorem permutation_invariance_witness :
    computeChannelSwapperMatrix [{ r := 255, g := 0, b := 0 }, { r := 0, g := 0, b := 255 }]
        [{ r := 0, g := 255, b := 0 }, { r := 255, g := 255, b := 255 }] true 100
      = computeChannelSwapperMatrix [{ r := 0, g := 0, b := 255 }, { r := 255, g := 0, b := 0 }]
        [{ r := 255, g := 255, b := 255 }, { r := 0, g := 255, b := 0 }] true 100 :=
  permutation_invariance
    [({ r := 255, g := 0, b := 0 }, { r := 0, g := 255, b := 0 }),
      ({ r := 0, g := 0, b := 255 }, { r := 255, g := 255, b := 255 })]
    [({ r := 0, g := 0, b := 255 }, { r := 255, g := 255, b := 255 }),
      ({ r := 255, g := 0, b := 0 }, { r := 0, g := 255, b := 0 })]
    (List.Perm.swap _ _ _) (by norm_num) true 100

end SCS

namespace SCS

/-! ### Concrete evaluations of the pipeline (exact rational arithmetic) -/

set_option maxRecDepth 100000 in
set_option maxHeartbeats 1000000 in
theorem eval_zeroPair :
    computeChannelSwapperMatrix [{ r := 0, g := 0, b := 0 }]
      [{ r := 0, g := 0, b := 0 }] true 100
      = some [[0, 0, 0], [0, 0, 0], [0, 0, 0]] := by
  norm_num [computeChannelSwapperMatrix, computeRow, channelRowRaw,
    solveLeastSquares, solveLinearSystem, forwardElim, forwardElimAux,
    forwardStep, findMaxRow, swapRows, eliminateBelow, elimRow, backSubst,
    backSubstAux, getEntry, eps12, epsReg, normalizeColor, rescaleRow,
    clampRow, rowSumOf, List.range_succ, List.range', abs_eq_max_neg,
    max_def, min_def]

set_option maxRecDepth 100000 in
set_option maxHeartbeats 1000000 in
theorem eval_zeroPair_raw :
    channelRowRaw ([({ r := 0, g := 0, b := 0 } : Color)].map normalizeColor)
      ([({ r := 0, g := 0, b := 0 } : Color)].map normalizeColor) 0
      = some [0, 0, 0] := by
  norm_num [channelRowRaw, solveLeastSquares, solveLinearSystem, forwardElim,
    forwardElimAux, forwardStep, findMaxRow, swapRows, eliminateBelow, elimRow,
    backSubst, backSubstAux, getEntry, eps12, epsReg, normalizeColor,
    List.range_succ, List.range', abs_eq_max_neg, max_def, min_def]

set_option maxRecDepth 100000 in
set_option maxHeartbeats 2000000 in
/-- C4 (Scenario A): for the single pair (255,0,0) -> (0,255,0) with
preventClipping=false the exact result has Red and Blue rows (0,0,0) and Green
row (10^12/(10^10+1), 0, 0), i.e. (100, 0, 0) up to the 1e-10 regularization
(within 1e-7 of 100), matching the reference Gaussian-elimination computation
of the regularized normal equations. -/
theorem scenarioA_matrix :
    computeChannelSwapperMatrix [{ r := 255, g := 0, b := 0 }]
      [{ r := 0, g := 255, b := 0 }] false 100
      = some [[0, 0, 0], [(10 ^ 12 : ℚ) / (10 ^ 10 + 1), 0, 0], [0, 0, 0]]
    ∧ |(10 ^ 12 : ℚ) / (10 ^ 10 + 1) - 100| ≤ 1 / 10 ^ 7 := by
  constructor
  · norm_num [computeChannelSwapperMatrix, computeRow, channelRowRaw,
      solveLeastSquares, solveLinearSystem, forwardElim, forwardElimAux,
      forwardStep, findMaxRow, swapRows, eliminateBelow, elimRow, backSubst,
      backSubstAux, getEntry, eps12, epsReg, normalizeColor, rescaleRow,
      clampRow, rowSumOf, List.range_succ, List.range', abs_eq_max_neg,
      max_def, min_def]
  · rw [abs_le]
    constructor <;> norm_num

set_option maxRecDepth 100000 in
set_option maxHeartbeats 4000000 in
/-- C1 (counterexample): a well-formed, equal-length, non-empty input on which
preventClipping=true still yields a returned row whose absolute sum exceeds
maxRowSum = 100: the raw red row is about (25494, 25494, -50988) with row sum
about 0.02, so the rescale step does not fire, and the final clamp turns it
into (200, 200, -200) with row sum 200. -/
theorem rowSumBound_fails_after_clamp :
    (∀ c ∈ ([{ r := 100, g := 100, b := 100 }, { r := 200, g := 0, b := 100 },
          { r := 0, g := 201, b := 100 }] : List Color)
        ++ ([{ r := 0, g := 0, b := 0 }, { r := 0, g := 0, b := 0 },
          { r := 255, g := 0, b := 0 }] : List Color), c.WellFormed)
    ∧ ([{ r := 100, g := 100, b := 100 }, { r := 200, g := 0, b := 100 },
          { r := 0, g := 201, b := 100 }] : List Color).length
        = ([{ r := 0, g := 0, b := 0 }, { r := 0, g := 0, b := 0 },
          { r := 255, g := 0, b := 0 }] : List Color).length
    ∧ computeChannelSwapperMatrix
        [{ r := 100, g := 100, b := 100 }, { r := 200, g := 0, b := 100 },
          { r := 0, g := 201, b := 100 }]
        [{ r := 0, g := 0, b := 0 }, { r := 0, g := 0, b := 0 },
          { r := 255, g := 0, b := 0 }] true 100
      = some [[200, 200, -200], [0, 0, 0], [0, 0, 0]]
    ∧ ¬ |rowSumOf [(200 : ℚ), 200, -200]| ≤ 100 := by
  refine ⟨?_, rfl, ?_, ?_⟩
  · intro c hc
    simp only [List.cons_append, List.nil_append, List.mem_cons,
      List.not_mem_nil, or_false] at hc
    rcases hc with rfl | rfl | rfl | rfl | rfl | rfl
    · exact wellFormed_intro _ 100 100 100 (by norm_num) (by norm_num)
        (by norm_num) (by norm_num) (by norm_num) (by norm_num)
    · exact wellFormed_intro _ 200 0 100 (by norm_num) (by norm_num)
        (by norm_num) (by norm_num) (by norm_num) (by norm_num)
    · exact wellFormed_intro _ 0 201 100 (by norm_num) (by norm_num)
        (by norm_num) (by norm_num) (by norm_num) (by norm_num)
    · exact wellFormed_intro _ 0 0 0 (by norm_num) (by norm_num)
        (by norm_num) (by norm_num) (by norm_num) (by norm_num)
    · exact wellFormed_intro _ 0 0 0 (by norm_num) (by norm_num)
        (by norm_num) (by norm_num) (by norm_num) (by norm_num)
    · exact wellFormed_intro _ 255 0 0 (by norm_num) (by norm_num)
        (by norm_num) (by norm_num) (by norm_num) (by norm_num)
  · norm_num [computeChannelSwapperMatrix, computeRow, channelRowRaw,
      solveLeastSquares, solveLinearSystem, forwardElim, forwardElimAux,
      forwardStep, findMaxRow, swapRows, eliminateBelow, elimRow, backSubst,
      backSubstAux, getEntry, eps12, epsReg, normalizeColor, rescaleRow,
      clampRow, rowSumOf, List.range_succ, List.range', abs_eq_max_neg,
      max_def, min_def]
  · norm_num [rowSumOf, abs_le]

/-- C1 (amended): with preventClipping=true the absolute row sum is at most
maxRowSum after the rescale step and before the final [-200, 200] clamp; every
returned row is exactly the clamp of such a bounded row (the clamp itself can
push the sum back above the bound, as the counterexample shows). -/
theorem rowSum_bounded_before_clamp (sc tc : List Color) (ms : ℚ)
    (M : List (List ℚ)) (hms : 0 ≤ ms)
    (hM : computeChannelSwapperMatrix sc tc true ms = some M)
    (ch : ℕ) (hch : ch < 3) (raw : List ℚ)
    (hraw : channelRowRaw (sc.map normalizeColor) (tc.map normalizeColor) ch
      = some raw) :
    |rowSumOf (rescaleRow true ms raw)| ≤ ms
    ∧ M.getD ch [] = clampRow (rescaleRow true ms raw) := by
  refine ⟨rescaleRow_sum_le ms hms raw, ?_⟩
  obtain ⟨r0, r1, r2, h0, h1, h2, rfl⟩ := computeMatrix_rows sc tc true ms M hM
  interval_cases ch
  · rw [computeRow_eq _ _ _ _ _ _ hraw] at h0
    simpa using (Option.some.inj h0).symm
  · rw [computeRow_eq _ _ _ _ _ _ hraw] at h1
    simpa using (Option.some.inj h1).symm
  · rw [computeRow_eq _ _ _ _ _ _ hraw] at h2
    simpa using (Option.some.inj h2).symm

theorem rowSum_bounded_before_clamp_witness :
    |rowSumOf (rescaleRow true 100 [0, 0, 0])| ≤ 100 :=
  (rowSum_bounded_before_clamp [{ r := 0, g := 0, b := 0 }]
    [{ r := 0, g := 0, b := 0 }] 100 [[0, 0, 0], [0, 0, 0], [0, 0, 0]]
    (by norm_num) eval_zeroPair 0 (by norm_num) [0, 0, 0] eval_zeroPair_raw).1

theorem matrix_entries_clamped_witness :
    -200 ≤ (0 : ℚ) ∧ (0 : ℚ) ≤ 200 :=
  matrix_entries_clamped [{ r := 0, g := 0, b := 0 }]
    [{ r := 0, g := 0, b := 0 }] true 100 [[0, 0, 0], [0, 0, 0], [0, 0, 0]]
    (by
      intro c hc
      simp only [List.cons_append, List.nil_append, List.mem_cons,
        List.not_mem_nil, or_false] at hc
      rcases hc with rfl | rfl <;>
        exact wellFormed_intro _ 0 0 0 (by norm_num) (by norm_num)
          (by norm_num) (by norm_num) (by norm_num) (by norm_num))
    rfl (by simp) eval_zeroPair [0, 0, 0] (by simp) 0 (by simp)

end SCS
